import Mathlib

/-!
Verification of the kvbase repository: a uniform CRUD interface over two
embedded key-value backends.

* `BboltBackend` (src/bboltdb.go) wraps bbolt: buckets are native namespaces;
  every operation first runs `checkBucket` (`CreateBucketIfNotExists`).
* `LevelBackend` (src/unnamed/part_000, leveldb.go) wraps goleveldb: buckets
  are emulated by the physical key `bucket ++ "_" ++ key` and prefix scans.

The stores are shallowly embedded as association lists; values are a small
inductive `JVal` with an injective tagged serialization modelling
`encoding/json` (`Marshal` fails on unsupported values such as channels,
mirroring `json.Marshal` returning an error).
-/

/-- Error values surfaced by the two adapters.  `keyAlreadyExists` is
`errors.New("key already exists")` (both adapters); `keyNotFound` is bbolt's
`errors.New("key does not exist")`; `levelNotFound` is `leveldb.ErrNotFound`;
`bucketNotFound` and `bucketNameRequired` are bbolt's `ErrBucketNotFound` and
`ErrBucketNameRequired`; `keyRequired` is bbolt's `ErrKeyRequired`;
`marshalFail` / `unmarshalFail` are errors returned by `encoding/json`. -/
inductive Err
  | keyAlreadyExists
  | keyNotFound
  | levelNotFound
  | bucketNotFound
  | bucketNameRequired
  | keyRequired
  | marshalFail
  | unmarshalFail
  deriving DecidableEq, Repr

/-- The abstract `NotFound` error kind of the spec: bbolt reports
"key does not exist", goleveldb reports `leveldb.ErrNotFound`. -/
def Err.isNotFound : Err → Bool
  | .keyNotFound => true
  | .levelNotFound => true
  | _ => false

/-- Application values handed to the adapters (`model interface{}` in Go).
`junsupported` stands for a Go value that `json.Marshal` rejects
(a channel, function, …). -/
inductive JVal
  | jstr (s : String)
  | jbool (b : Bool)
  | junsupported
  deriving DecidableEq, Repr

namespace json

/-- Modelled from the `encoding/json` library contract: a self-describing
tagged byte encoding, injective on serializable values, failing exactly on
unsupported values. -/
def Marshal : JVal → Option String
  | .jstr s => some (String.mk ('S' :: s.data))
  | .jbool true => some "T"
  | .jbool false => some "F"
  | .junsupported => none

/-- Modelled from the `encoding/json` library contract: the inverse of
`json.Marshal` on its range. -/
def Unmarshal (d : String) : Option JVal :=
  match d.data with
  | 'S' :: rest => some (.jstr (String.mk rest))
  | ['T'] => some (.jbool true)
  | ['F'] => some (.jbool false)
  | _ => none

theorem Unmarshal_Marshal {v : JVal} {d : String} (h : Marshal v = some d) :
    Unmarshal d = some v := by
  cases v with
  | jstr s =>
      simp only [Marshal, Option.some.injEq] at h
      subst h
      simp [Unmarshal]
  | jbool b =>
      cases b <;> simp only [Marshal, Option.some.injEq] at h <;> subst h <;> rfl
  | junsupported => simp [Marshal] at h

end json

/-- Association-list lookup: the first binding of `k`, if any.  Models a map
or flat key-value store lookup (`db.Get`, `b.Get`, `results[key]`). -/
def alookup {α : Type} (m : List (String × α)) (k : String) : Option α :=
  match m with
  | [] => none
  | (k', v) :: rest => if k' = k then some v else alookup rest k

/-- Association-list insert-or-replace: models `db.Put`, `b.Put` and the Go
map assignment `results[key] = model`. -/
def mapInsert {α : Type} (m : List (String × α)) (k : String) (v : α) :
    List (String × α) :=
  match m with
  | [] => [(k, v)]
  | (k', v') :: rest => if k' = k then (k, v) :: rest else (k', v') :: mapInsert rest k v

/-- Association-list erase: models `db.Delete` and `b.Delete`. -/
def mapErase {α : Type} (m : List (String × α)) (k : String) : List (String × α) :=
  m.filter (fun e => e.1 ≠ k)

/-- Tests whether `p` is a textual lead segment of `s` (`util.BytesPrefix`
membership). -/
def strHasPfx (p s : String) : Bool :=
  p.data.isPrefixOf s.data

/-- Go's `strings.TrimPrefix s p`: drops `p` from the front of `s` when
present, otherwise returns `s` unchanged. -/
def trimPfx (s p : String) : String :=
  if strHasPfx p s then String.mk (s.data.drop p.data.length) else s

/-- The goleveldb flat store: physical key to stored bytes. -/
abbrev Level := List (String × String)

/-- Models `db.NewIterator(util.BytesPrefix p)`: all entries whose physical key
starts with `p`. -/
def levelScan (db : Level) (p : String) : Level :=
  db.filter (fun e => strHasPfx p e.1)

/-- The bbolt store: bucket name to bucket contents (key to stored bytes). -/
abbrev Bolt := List (String × List (String × String))

/-- Models `tx.Bucket name`: the contents of bucket `name`, if it exists. -/
def boltFind (db : Bolt) (bucket : String) : Option (List (String × String)) :=
  alookup db bucket

/-- Apply `f` to the contents of bucket `bucket` (a write inside the bucket
object returned by `tx.Bucket`, i.e. the first binding of that name). -/
def boltUpdateBucket (db : Bolt) (bucket : String)
    (f : List (String × String) → List (String × String)) : Bolt :=
  match db with
  | [] => []
  | (b0, c0) :: rest =>
    if b0 = bucket then (b0, f c0) :: rest
    else (b0, c0) :: boltUpdateBucket rest bucket f

/-- Well-formed leveldb state: physical keys are distinct. -/
abbrev LevelWF (db : Level) : Prop := (db.map Prod.fst).Nodup

/-- Well-formed bbolt state: bucket names are distinct and keys are distinct
inside every bucket. -/
abbrev BoltWF (db : Bolt) : Prop :=
  (db.map Prod.fst).Nodup ∧ ∀ e ∈ db, (e.2.map Prod.fst).Nodup

/-- The `db.ForEach` / iterator loop shared by both `Get` implementations:
unmarshal each stored value into `model` and assign `results[f key] = model`,
aborting on the first unmarshal error (`f` is the key transformation applied
before the map assignment: `strings.TrimPrefix` for leveldb, identity for
bbolt). -/
def decodeAll (f : String → String) :
    List (String × String) → List (String × JVal) →
    Except Err (List (String × JVal))
  | [], results => .ok results
  | (k, d) :: rest, results =>
    match json.Unmarshal d with
    | none => .error .unmarshalFail
    | some v => decodeAll f rest (mapInsert results (f k) v)

namespace LevelBackend

/-- Source `LevelBackend.Count`: prefix-scan `bucket ++ "_"` and count the entries.
The Go iterator can only fail on engine I/O errors, which the pure model does
not produce, so the returned error is always nil. -/
def Count (db : Level) (bucket : String) : Except Err Nat × Level :=
  (.ok (levelScan db (bucket ++ "_")).length, db)

/-- Source `LevelBackend.Create`: fail if `db.Get(bucket ++ "_" ++ key)` finds a
record, else marshal and `Put`. -/
def Create (db : Level) (bucket key : String) (model : JVal) :
    Except Err Unit × Level :=
  if (alookup db (bucket ++ "_" ++ key)).isSome then
    (.error .keyAlreadyExists, db)
  else
    match json.Marshal model with
    | none => (.error .marshalFail, db)
    | some data => (.ok (), mapInsert db (bucket ++ "_" ++ key) data)

/-- Source `LevelBackend.Delete`: fail with `leveldb.ErrNotFound` if the physical
key is absent, else `Delete` it. -/
def Delete (db : Level) (bucket key : String) : Except Err Unit × Level :=
  match alookup db (bucket ++ "_" ++ key) with
  | none => (.error .levelNotFound, db)
  | some _ => (.ok (), mapErase db (bucket ++ "_" ++ key))

/-- Source `LevelBackend.Drop`: prefix-scan `bucket ++ "_"` and delete every
physical key the iterator yields. -/
def Drop (db : Level) (bucket : String) : Except Err Unit × Level :=
  (.ok (), (levelScan db (bucket ++ "_")).foldl (fun d e => mapErase d e.1) db)

/-- Source `LevelBackend.Get`: prefix-scan `bucket ++ "_"`, trim the prefix off each
key, unmarshal each value and collect the results map. -/
def Get (db : Level) (bucket : String) :
    Except Err (List (String × JVal)) × Level :=
  (decodeAll (fun k => trimPfx k (bucket ++ "_")) (levelScan db (bucket ++ "_")) [],
   db)

/-- Source `LevelBackend.Read`: `db.Get(bucket ++ "_" ++ key)` then unmarshal. -/
def Read (db : Level) (bucket key : String) : Except Err JVal × Level :=
  match alookup db (bucket ++ "_" ++ key) with
  | none => (.error .levelNotFound, db)
  | some data =>
    match json.Unmarshal data with
    | none => (.error .unmarshalFail, db)
    | some v => (.ok v, db)

/-- Source `LevelBackend.Update`: fail with `leveldb.ErrNotFound` if the physical
key is absent, else marshal and `Put`. -/
def Update (db : Level) (bucket key : String) (model : JVal) :
    Except Err Unit × Level :=
  match alookup db (bucket ++ "_" ++ key) with
  | none => (.error .levelNotFound, db)
  | some _ =>
    match json.Marshal model with
    | none => (.error .marshalFail, db)
    | some data => (.ok (), mapInsert db (bucket ++ "_" ++ key) data)

end LevelBackend

namespace BboltBackend

/-- Source `BboltBackend.checkBucket`: `tx.CreateBucketIfNotExists bucket` in its
own write transaction.  bbolt rejects the empty bucket name with
`ErrBucketNameRequired`; otherwise the bucket is created if absent. -/
def checkBucket (db : Bolt) (bucket : String) : Except Err Bolt :=
  if bucket = "" then .error .bucketNameRequired
  else
    match boltFind db bucket with
    | some _ => .ok db
    | none => .ok (db ++ [(bucket, [])])

/-- Source `BboltBackend.view`: ensure the bucket exists, then `b.Get key`; a nil
result is `errors.New("key does not exist")`.  The state component records
the bucket possibly created by `checkBucket`, which persists even when the
lookup fails (it ran in its own committed transaction). -/
def view (db : Bolt) (bucket key : String) : Except Err String × Bolt :=
  match checkBucket db bucket with
  | .error e => (.error e, db)
  | .ok db1 =>
    match alookup ((boltFind db1 bucket).getD []) key with
    | none => (.error .keyNotFound, db1)
    | some data => (.ok data, db1)

/-- Source `BboltBackend.write`: marshal the model, ensure the bucket exists, then
`b.Put key data`.  bbolt's `Put` rejects the empty key with `ErrKeyRequired`,
rolling back that transaction (the `checkBucket` transaction has already
committed). -/
def write (db : Bolt) (bucket key : String) (model : JVal) :
    Except Err Unit × Bolt :=
  match json.Marshal model with
  | none => (.error .marshalFail, db)
  | some data =>
    match checkBucket db bucket with
    | .error e => (.error e, db)
    | .ok db1 =>
      if key = "" then (.error .keyRequired, db1)
      else (.ok (), boltUpdateBucket db1 bucket (fun b => mapInsert b key data))

/-- Source `BboltBackend.Count`: ensure the bucket exists, then `b.Stats().KeyN`. -/
def Count (db : Bolt) (bucket : String) : Except Err Nat × Bolt :=
  match checkBucket db bucket with
  | .error e => (.error e, db)
  | .ok db1 => (.ok ((boltFind db1 bucket).getD []).length, db1)

/-- Source `BboltBackend.Create`: if `view` succeeds the key already exists;
otherwise (whatever error `view` returned) fall through to `write`. -/
def Create (db : Bolt) (bucket key : String) (model : JVal) :
    Except Err Unit × Bolt :=
  match view db bucket key with
  | (.ok _, db1) => (.error .keyAlreadyExists, db1)
  | (.error _, db1) => write db1 bucket key model

/-- Source `BboltBackend.Delete`: `view` first (propagating its error), then
`b.Delete key`. -/
def Delete (db : Bolt) (bucket key : String) : Except Err Unit × Bolt :=
  match view db bucket key with
  | (.error e, db1) => (.error e, db1)
  | (.ok _, db1) => (.ok (), boltUpdateBucket db1 bucket (fun b => mapErase b key))

/-- Source `BboltBackend.Drop`: `tx.DeleteBucket bucket`, which fails with
`ErrBucketNotFound` when the bucket does not exist (no `checkBucket` here). -/
def Drop (db : Bolt) (bucket : String) : Except Err Unit × Bolt :=
  match boltFind db bucket with
  | none => (.error .bucketNotFound, db)
  | some _ => (.ok (), db.filter (fun e => e.1 ≠ bucket))

/-- Source `BboltBackend.Get`: ensure the bucket exists, then `b.ForEach` decoding
every value into the results map. -/
def Get (db : Bolt) (bucket : String) :
    Except Err (List (String × JVal)) × Bolt :=
  match checkBucket db bucket with
  | .error e => (.error e, db)
  | .ok db1 => (decodeAll (fun k => k) ((boltFind db1 bucket).getD []) [], db1)

/-- Source `BboltBackend.Read`: `view` then unmarshal. -/
def Read (db : Bolt) (bucket key : String) : Except Err JVal × Bolt :=
  match view db bucket key with
  | (.error e, db1) => (.error e, db1)
  | (.ok data, db1) =>
    match json.Unmarshal data with
    | none => (.error .unmarshalFail, db1)
    | some v => (.ok v, db1)

/-- Source `BboltBackend.Update`: `view` first (propagating its error), then
`write`. -/
def Update (db : Bolt) (bucket key : String) (model : JVal) :
    Except Err Unit × Bolt :=
  match view db bucket key with
  | (.error e, db1) => (.error e, db1)
  | (.ok _, db1) => write db1 bucket key model

end BboltBackend

/-! ### Association-list lemmas -/

theorem alookup_mapInsert_self {α : Type} (m : List (String × α)) (k : String)
    (v : α) : alookup (mapInsert m k v) k = some v := by
  induction m with
  | nil => simp [mapInsert, alookup]
  | cons e rest ih =>
      obtain ⟨k', v'⟩ := e
      by_cases h : k' = k
      · simp [mapInsert, h, alookup]
      · simp [mapInsert, h, alookup, ih]

theorem alookup_mapInsert_ne {α : Type} (m : List (String × α)) (k k' : String)
    (v : α) (h : k' ≠ k) : alookup (mapInsert m k v) k' = alookup m k' := by
  have hkk : k ≠ k' := fun he => h he.symm
  induction m with
  | nil => simp [mapInsert, alookup, hkk]
  | cons e rest ih =>
      obtain ⟨k0, v0⟩ := e
      by_cases h0 : k0 = k
      · subst h0
        simp [mapInsert, alookup, hkk]
      · simp only [mapInsert, if_neg h0, alookup]
        by_cases h1 : k0 = k' <;> simp [h1, ih]

theorem alookup_mapErase {α : Type} (m : List (String × α)) (k k' : String) :
    alookup (mapErase m k) k' = if k' = k then none else alookup m k' := by
  induction m with
  | nil => simp [mapErase, alookup]
  | cons e rest ih =>
      obtain ⟨k0, v0⟩ := e
      by_cases h0 : k0 = k
      · subst h0
        by_cases h1 : k0 = k' <;>
          simp_all [mapErase, alookup, List.filter_cons]
      · by_cases h1 : k0 = k' <;>
          simp_all [mapErase, alookup, List.filter_cons]

theorem alookup_eq_none_iff {α : Type} (m : List (String × α)) (k : String) :
    alookup m k = none ↔ k ∉ m.map Prod.fst := by
  induction m with
  | nil => simp [alookup]
  | cons e rest ih =>
      obtain ⟨k0, v0⟩ := e
      by_cases h : k0 = k
      · subst h
        simp [alookup]
      · have h' : k ≠ k0 := fun he => h he.symm
        simp [alookup, h, h', ih]

theorem alookup_mem {α : Type} {m : List (String × α)} {k : String} {v : α}
    (h : alookup m k = some v) : (k, v) ∈ m := by
  induction m with
  | nil => simp [alookup] at h
  | cons e rest ih =>
      obtain ⟨k0, v0⟩ := e
      simp only [alookup] at h
      by_cases h0 : k0 = k
      · subst h0
        rw [if_pos rfl] at h
        injection h with hv
        subst hv
        exact List.mem_cons_self _ _
      · rw [if_neg h0] at h
        exact List.mem_cons_of_mem _ (ih h)

theorem mapInsert_length_of_not_mem {α : Type} {m : List (String × α)}
    {k : String} (v : α) (h : k ∉ m.map Prod.fst) :
    (mapInsert m k v).length = m.length + 1 := by
  induction m with
  | nil => simp [mapInsert]
  | cons e rest ih =>
      obtain ⟨k0, v0⟩ := e
      simp only [List.map_cons, List.mem_cons] at h
      push_neg at h
      have hne : ¬ k0 = k := fun he => h.1 he.symm
      simp [mapInsert, hne, ih h.2]

theorem mem_keys_mapInsert {α : Type} (m : List (String × α)) (k x : String)
    (v : α) :
    x ∈ (mapInsert m k v).map Prod.fst ↔ x ∈ m.map Prod.fst ∨ x = k := by
  induction m with
  | nil => simp [mapInsert]
  | cons e rest ih =>
      obtain ⟨k0, v0⟩ := e
      by_cases h0 : k0 = k
      · subst h0
        simp [mapInsert]
        tauto
      · simp [mapInsert, h0, ih]
        tauto

theorem mem_mapInsert_self {α : Type} (m : List (String × α)) (k : String)
    (v : α) : (k, v) ∈ mapInsert m k v := by
  induction m with
  | nil => simp [mapInsert]
  | cons e rest ih =>
      obtain ⟨k0, v0⟩ := e
      by_cases h0 : k0 = k <;> simp [mapInsert, h0, ih]

theorem mem_mapInsert_of_ne {α : Type} {m : List (String × α)} {a k : String}
    {b : α} (v : α) (hmem : (a, b) ∈ m) (hne : a ≠ k) :
    (a, b) ∈ mapInsert m k v := by
  induction m with
  | nil => simp at hmem
  | cons e rest ih =>
      obtain ⟨k0, v0⟩ := e
      rcases List.mem_cons.mp hmem with he | hrest
      · have ha : a = k0 := congrArg Prod.fst he
        have hb : b = v0 := congrArg Prod.snd he
        subst ha
        subst hb
        have h0 : ¬ a = k := hne
        simp [mapInsert, h0]
      · by_cases h0 : k0 = k
        · simp [mapInsert, h0, hrest]
        · simp [mapInsert, h0, ih hrest]

theorem alookup_append_of_none {α : Type} {m : List (String × α)}
    (m' : List (String × α)) {k : String} (h : alookup m k = none) :
    alookup (m ++ m') k = alookup m' k := by
  induction m with
  | nil => simp
  | cons e rest ih =>
      obtain ⟨k0, v0⟩ := e
      by_cases h0 : k0 = k
      · simp [alookup, h0] at h
      · simp only [alookup, h0, if_false] at h
        simpa [alookup, h0] using ih h

/-! ### String-prefix lemmas -/

theorem string_ext {a b : String} (h : a.data = b.data) : a = b := by
  cases a
  cases b
  simp_all

theorem strHasPfx_append (p t : String) : strHasPfx p (p ++ t) = true := by
  simp only [strHasPfx, String.data_append, List.isPrefixOf_iff_prefix]
  exact List.prefix_append p.data t.data

theorem strHasPfx_trans {p q s : String} (h1 : strHasPfx (p ++ q) s = true) :
    strHasPfx p s = true := by
  simp only [strHasPfx, String.data_append, List.isPrefixOf_iff_prefix] at *
  exact (List.prefix_append p.data q.data).trans h1

theorem append_trimPfx {p s : String} (h : strHasPfx p s = true) :
    p ++ trimPfx s p = s := by
  simp only [trimPfx, if_pos h]
  apply string_ext
  simp only [String.data_append]
  simp only [strHasPfx, List.isPrefixOf_iff_prefix] at h
  exact List.prefix_iff_eq_append.mp h

theorem trimPfx_append (p t : String) : trimPfx (p ++ t) p = t := by
  simp only [trimPfx, strHasPfx_append, if_pos, String.data_append]
  apply string_ext
  simp [List.drop_append]

/-! ### Scan lemmas (leveldb prefix iterator) -/

theorem mem_levelScan (db : Level) (p : String) (e : String × String) :
    e ∈ levelScan db p ↔ e ∈ db ∧ strHasPfx p e.1 = true := by
  simp [levelScan, List.mem_filter]

theorem levelScan_keys_nodup {db : Level} (p : String) (h : LevelWF db) :
    ((levelScan db p).map Prod.fst).Nodup :=
  h.sublist (List.Sublist.map Prod.fst (List.filter_sublist db))

theorem levelScan_keys_pfx (db : Level) (p : String) :
    ∀ k ∈ (levelScan db p).map Prod.fst, strHasPfx p k = true := by
  intro k hk
  obtain ⟨e, he, rfl⟩ := List.mem_map.mp hk
  exact ((mem_levelScan db p e).mp he).2

theorem levelScan_length_mono (db : Level) (p q : String) :
    (levelScan db (p ++ q)).length ≤ (levelScan db p).length := by
  unfold levelScan
  rw [← List.countP_eq_length_filter, ← List.countP_eq_length_filter]
  exact List.countP_mono_left (fun e _ hm => strHasPfx_trans hm)

theorem alookup_foldl_erase {db : Level} {L : List (String × String)}
    {k : String}
    (h : k ∈ L.map Prod.fst ∨ alookup db k = none) :
    alookup (L.foldl (fun d e => mapErase d e.1) db) k = none := by
  induction L generalizing db with
  | nil =>
      rcases h with h | h
      · simp at h
      · simpa using h
  | cons e0 L' ih =>
      simp only [List.foldl_cons]
      apply ih
      rcases h with h | h
      · simp only [List.map_cons, List.mem_cons] at h
        rcases h with h0 | h0
        · right
          rw [alookup_mapErase]
          simp [h0]
        · exact Or.inl h0
      · right
        rw [alookup_mapErase]
        by_cases hk : k = e0.1 <;> simp [hk, h]

/-! ### bbolt store lemmas -/

theorem alookup_append {α : Type} (m m' : List (String × α)) (k : String) :
    alookup (m ++ m') k =
      match alookup m k with
      | some v => some v
      | none => alookup m' k := by
  induction m with
  | nil => simp [alookup]
  | cons e rest ih =>
      obtain ⟨k0, v0⟩ := e
      by_cases h0 : k0 = k <;> simp [alookup, h0, ih]

theorem boltFind_updateBucket_self {db : Bolt} {bucket : String}
    {bk : List (String × String)}
    (f : List (String × String) → List (String × String))
    (h : boltFind db bucket = some bk) :
    boltFind (boltUpdateBucket db bucket f) bucket = some (f bk) := by
  induction db with
  | nil => simp [boltFind, alookup] at h
  | cons e rest ih =>
      obtain ⟨b0, c0⟩ := e
      by_cases h0 : b0 = bucket
      · subst h0
        simp [boltFind, alookup] at h
        subst h
        simp [boltUpdateBucket, boltFind, alookup]
      · simp only [boltFind, alookup, if_neg h0] at h
        simp only [boltUpdateBucket, if_neg h0]
        simpa [boltFind, alookup, h0] using ih h

theorem boltFind_updateBucket_ne (db : Bolt) (bucket b2 : String)
    (f : List (String × String) → List (String × String)) (h : b2 ≠ bucket) :
    boltFind (boltUpdateBucket db bucket f) b2 = boltFind db b2 := by
  induction db with
  | nil => rfl
  | cons e rest ih =>
      obtain ⟨b0, c0⟩ := e
      by_cases h0 : b0 = bucket
      · subst h0
        have hb : ¬ b0 = b2 := fun he => h he.symm
        simp [boltFind, boltUpdateBucket, alookup, hb]
      · by_cases h1 : b0 = b2
        · subst h1
          simp [boltFind, boltUpdateBucket, alookup, h0]
        · simp only [boltUpdateBucket, if_neg h0, boltFind, alookup, if_neg h1]
          exact ih

theorem checkBucket_of_found {db : Bolt} {bucket : String}
    {bk : List (String × String)} (hne : bucket ≠ "")
    (h : boltFind db bucket = some bk) :
    BboltBackend.checkBucket db bucket = .ok db := by
  simp [BboltBackend.checkBucket, hne, h]

theorem checkBucket_of_absent {db : Bolt} {bucket : String}
    (hne : bucket ≠ "") (h : boltFind db bucket = none) :
    BboltBackend.checkBucket db bucket = .ok (db ++ [(bucket, [])]) := by
  simp [BboltBackend.checkBucket, hne, h]

theorem checkBucket_ok_find {db db1 : Bolt} {bucket : String}
    (h : BboltBackend.checkBucket db bucket = .ok db1) :
    boltFind db1 bucket = some ((boltFind db bucket).getD []) := by
  by_cases hne : bucket = ""
  · simp [BboltBackend.checkBucket, hne] at h
  · cases hf : boltFind db bucket with
    | some bk =>
        rw [checkBucket_of_found hne hf] at h
        injection h with h
        subst h
        simp [hf]
    | none =>
        rw [checkBucket_of_absent hne hf] at h
        injection h with h
        subst h
        simp [boltFind, alookup_append_of_none _ hf, alookup]

theorem checkBucket_ok_frame {db db1 : Bolt} {bucket : String}
    (h : BboltBackend.checkBucket db bucket = .ok db1) :
    ∀ b2, b2 ≠ bucket → boltFind db1 b2 = boltFind db b2 := by
  intro b2 hb2
  by_cases hne : bucket = ""
  · simp [BboltBackend.checkBucket, hne] at h
  · cases hf : boltFind db bucket with
    | some bk =>
        rw [checkBucket_of_found hne hf] at h
        injection h with h
        subst h
        rfl
    | none =>
        rw [checkBucket_of_absent hne hf] at h
        injection h with h
        subst h
        have hb2' : ¬ bucket = b2 := fun he => hb2 he.symm
        unfold boltFind
        rw [alookup_append]
        cases hf2 : alookup db b2 <;> simp [alookup, hb2']

/-! ### Lemmas about the `Get` decode loop -/

theorem decodeAll_ok_mem_preserved {f : String → String}
    {l : List (String × String)} {acc m : List (String × JVal)}
    {a : String} {b : JVal}
    (h : decodeAll f l acc = .ok m) (hmem : (a, b) ∈ acc)
    (hne : ∀ e ∈ l, f e.1 ≠ a) : (a, b) ∈ m := by
  induction l generalizing acc with
  | nil =>
      injection h with h
      subst h
      exact hmem
  | cons e l' ih =>
      obtain ⟨k, d⟩ := e
      simp only [decodeAll] at h
      cases hu : json.Unmarshal d with
      | none =>
          rw [hu] at h
          exact Except.noConfusion h
      | some v =>
          rw [hu] at h
          refine ih h ?_ ?_
          · refine mem_mapInsert_of_ne _ hmem ?_
            intro he
            exact hne (k, d) (List.mem_cons_self _ _) he.symm
          · intro e he
            exact hne e (List.mem_cons_of_mem _ he)

theorem decodeAll_ok_length {f : String → String}
    {l : List (String × String)} {acc m : List (String × JVal)}
    (hnd : (l.map (fun e => f e.1)).Nodup)
    (hdisj : ∀ e ∈ l, f e.1 ∉ acc.map Prod.fst)
    (h : decodeAll f l acc = .ok m) : m.length = acc.length + l.length := by
  induction l generalizing acc with
  | nil =>
      injection h with h
      subst h
      simp
  | cons e l' ih =>
      obtain ⟨k, d⟩ := e
      simp only [decodeAll] at h
      cases hu : json.Unmarshal d with
      | none =>
          rw [hu] at h
          exact Except.noConfusion h
      | some v =>
          rw [hu] at h
          simp only [List.map_cons, List.nodup_cons] at hnd
          have hfk : f k ∉ acc.map Prod.fst :=
            hdisj (k, d) (List.mem_cons_self _ _)
          have hrec := ih hnd.2 ?_ h
          · rw [hrec, mapInsert_length_of_not_mem _ hfk]
            simp only [List.length_cons]
            omega
          · intro e he
            rw [mem_keys_mapInsert]
            push_neg
            constructor
            · exact hdisj e (List.mem_cons_of_mem _ he)
            · intro hfe
              exact hnd.1 (hfe ▸ List.mem_map_of_mem (fun e => f e.1) he)

theorem decodeAll_ok_mem {f : String → String}
    {l : List (String × String)} {acc m : List (String × JVal)}
    {k d : String} {v : JVal}
    (hnd : (l.map (fun e => f e.1)).Nodup)
    (hdisj : ∀ e ∈ l, f e.1 ∉ acc.map Prod.fst)
    (h : decodeAll f l acc = .ok m)
    (hmem : (k, d) ∈ l) (hv : json.Unmarshal d = some v) :
    (f k, v) ∈ m := by
  induction l generalizing acc with
  | nil => simp at hmem
  | cons e l' ih =>
      obtain ⟨k0, d0⟩ := e
      simp only [decodeAll] at h
      simp only [List.map_cons, List.nodup_cons] at hnd
      cases hu : json.Unmarshal d0 with
      | none =>
          rw [hu] at h
          exact Except.noConfusion h
      | some v0 =>
          rw [hu] at h
          rcases List.mem_cons.mp hmem with he | hrest
          · have hk : k = k0 := congrArg Prod.fst he
            have hd : d = d0 := congrArg Prod.snd he
            subst hk
            subst hd
            rw [hv] at hu
            injection hu with hu
            subst hu
            refine decodeAll_ok_mem_preserved h (mem_mapInsert_self _ _ _) ?_
            intro e he hfe
            exact hnd.1 (hfe ▸ List.mem_map_of_mem (fun e => f e.1) he)
          · refine ih hnd.2 ?_ h hrest
            intro e he
            rw [mem_keys_mapInsert]
            push_neg
            constructor
            · exact hdisj e (List.mem_cons_of_mem _ he)
            · intro hfe
              exact hnd.1 (hfe ▸ List.mem_map_of_mem (fun e => f e.1) he)

theorem trimmed_scan_nodup {db : Level} (p : String) (h : LevelWF db) :
    ((levelScan db p).map (fun e => trimPfx e.1 p)).Nodup := by
  have h1 : ((levelScan db p).map Prod.fst).Nodup := levelScan_keys_nodup p h
  have h2 : (levelScan db p).map (fun e => trimPfx e.1 p) =
      ((levelScan db p).map Prod.fst).map (fun k => trimPfx k p) := by
    simp [List.map_map, Function.comp]
  rw [h2]
  refine h1.map_on ?_
  intro x hx y hy hxy
  have hpx := levelScan_keys_pfx db p x hx
  have hpy := levelScan_keys_pfx db p y hy
  have := append_trimPfx hpx
  rw [← this, hxy, append_trimPfx hpy]

theorem bolt_contents_keys_nodup {db : Bolt} {bucket : String}
    {bk : List (String × String)} (hwf : BoltWF db)
    (h : boltFind db bucket = some bk) : (bk.map Prod.fst).Nodup :=
  hwf.2 (bucket, bk) (alookup_mem h)

theorem checkBucket_ok_ne {db db1 : Bolt} {bucket : String}
    (h : BboltBackend.checkBucket db bucket = .ok db1) : bucket ≠ "" := by
  intro he
  subst he
  simp [BboltBackend.checkBucket] at h

theorem write_ok {db db2 : Bolt} {bucket key : String} {v : JVal}
    (h : BboltBackend.write db bucket key v = (.ok (), db2)) :
    ∃ data dbc, json.Marshal v = some data ∧
      BboltBackend.checkBucket db bucket = .ok dbc ∧ key ≠ "" ∧
      db2 = boltUpdateBucket dbc bucket (fun b => mapInsert b key data) := by
  unfold BboltBackend.write at h
  cases hm : json.Marshal v with
  | none =>
      rw [hm] at h
      exact Except.noConfusion (congrArg Prod.fst h)
  | some data =>
      rw [hm] at h
      dsimp only at h
      cases hc : BboltBackend.checkBucket db bucket with
      | error e =>
          rw [hc] at h
          exact Except.noConfusion (congrArg Prod.fst h)
      | ok dbc =>
          rw [hc] at h
          dsimp only at h
          by_cases hk : key = ""
          · rw [if_pos hk] at h
            exact Except.noConfusion (congrArg Prod.fst h)
          · rw [if_neg hk] at h
            exact ⟨data, dbc, rfl, rfl, hk, (congrArg Prod.snd h).symm⟩

theorem view_of_found {db : Bolt} {bucket : String}
    {bk : List (String × String)} (hne : bucket ≠ "")
    (hf : boltFind db bucket = some bk) (key : String) :
    BboltBackend.view db bucket key =
      ((alookup bk key).elim (.error .keyNotFound) .ok, db) := by
  unfold BboltBackend.view
  rw [checkBucket_of_found hne hf]
  dsimp only
  rw [hf]
  simp only [Option.getD_some]
  cases alookup bk key <;> rfl

theorem view_absent {db : Bolt} {bucket key : String} (hne : bucket ≠ "")
    (h : alookup ((boltFind db bucket).getD []) key = none) :
    ∃ db1, BboltBackend.checkBucket db bucket = .ok db1 ∧
      BboltBackend.view db bucket key = (.error .keyNotFound, db1) := by
  cases hf : boltFind db bucket with
  | some bk =>
      refine ⟨db, checkBucket_of_found hne hf, ?_⟩
      rw [view_of_found hne hf]
      rw [hf] at h
      simp only [Option.getD_some] at h
      rw [h]
      rfl
  | none =>
      refine ⟨db ++ [(bucket, [])], checkBucket_of_absent hne hf, ?_⟩
      unfold BboltBackend.view
      rw [checkBucket_of_absent hne hf]
      dsimp only
      have hf2 : boltFind (db ++ [(bucket, [])]) bucket = some [] := by
        have h3 := checkBucket_ok_find (checkBucket_of_absent hne hf)
        rw [hf] at h3
        simpa using h3
      rw [hf2]
      rfl

theorem level_create_ok {db db2 : Level} {bucket key : String} {v : JVal}
    (h : LevelBackend.Create db bucket key v = (.ok (), db2)) :
    ∃ data, json.Marshal v = some data ∧
      db2 = mapInsert db (bucket ++ "_" ++ key) data := by
  unfold LevelBackend.Create at h
  by_cases h1 : (alookup db (bucket ++ "_" ++ key)).isSome
  · rw [if_pos h1] at h
    exact Except.noConfusion (congrArg Prod.fst h)
  · rw [if_neg h1] at h
    cases hm : json.Marshal v with
    | none =>
        rw [hm] at h
        exact Except.noConfusion (congrArg Prod.fst h)
    | some data =>
        rw [hm] at h
        dsimp only at h
        exact ⟨data, rfl, (congrArg Prod.snd h).symm⟩

theorem level_read_found {db : Level} {bucket key data : String} {v : JVal}
    (h : alookup db (bucket ++ "_" ++ key) = some data)
    (hu : json.Unmarshal data = some v) :
    (LevelBackend.Read db bucket key).1 = .ok v := by
  unfold LevelBackend.Read
  rw [h]
  dsimp only
  rw [hu]

theorem checkBucket_contents_nodup {db db1 : Bolt} {bucket : String}
    (hwf : BoltWF db) (h : BboltBackend.checkBucket db bucket = .ok db1) :
    (((boltFind db1 bucket).getD []).map Prod.fst).Nodup := by
  rw [checkBucket_ok_find h]
  simp only [Option.getD_some]
  cases hf : boltFind db bucket with
  | some bk =>
      simp only [Option.getD_some]
      exact bolt_contents_keys_nodup hwf hf
  | none => simp

/-! ### Claims -/

/-- C1: on either adapter, whenever `Create bucket key value` succeeds, a
subsequent `Read bucket key` succeeds and returns the value obtained by the
JSON serialization round-trip of `value` (which, the encoding being
invertible, is `value` itself). -/
theorem c1_create_then_read_roundtrip :
    (∀ (db db2 : Level) (bucket key : String) (v : JVal),
        LevelBackend.Create db bucket key v = (.ok (), db2) →
        (LevelBackend.Read db2 bucket key).1 = .ok v)
    ∧ (∀ (db db2 : Bolt) (bucket key : String) (v : JVal),
        BboltBackend.Create db bucket key v = (.ok (), db2) →
        (BboltBackend.Read db2 bucket key).1 = .ok v) := by
  constructor
  · intro db db2 bucket key v h
    obtain ⟨data, hm, hdb2⟩ := level_create_ok h
    subst hdb2
    exact level_read_found (alookup_mapInsert_self _ _ _)
      (json.Unmarshal_Marshal hm)
  · intro db db2 bucket key v h
    unfold BboltBackend.Create at h
    cases hv : BboltBackend.view db bucket key with
    | mk r db1 =>
        rw [hv] at h
        cases r with
        | ok data => exact Except.noConfusion (congrArg Prod.fst h)
        | error e =>
            dsimp only at h
            obtain ⟨data, dbc, hm, hc, hk, hdb2⟩ := write_ok h
            subst hdb2
            have hbne : bucket ≠ "" := checkBucket_ok_ne hc
            have hfind := checkBucket_ok_find hc
            have hfind2 :
                boltFind (boltUpdateBucket dbc bucket
                    (fun b => mapInsert b key data)) bucket =
                  some (mapInsert ((boltFind db1 bucket).getD []) key data) :=
              boltFind_updateBucket_self _ hfind
            unfold BboltBackend.Read
            rw [view_of_found hbne hfind2, alookup_mapInsert_self]
            dsimp only [Option.elim]
            rw [json.Unmarshal_Marshal hm]

/-- C1 witness: a concrete run of `Create` then `Read` on both adapters. -/
theorem c1_witness :
    (LevelBackend.Read [("users_u1", "SAnn")] "users" "u1").1 =
        .ok (.jstr "Ann")
    ∧ (BboltBackend.Read [("users", [("u1", "SAnn")])] "users" "u1").1 =
        .ok (.jstr "Ann") :=
  ⟨c1_create_then_read_roundtrip.1 [] [("users_u1", "SAnn")] "users" "u1"
      (.jstr "Ann") (by rfl),
   c1_create_then_read_roundtrip.2 [] [("users", [("u1", "SAnn")])] "users"
      "u1" (.jstr "Ann") (by rfl)⟩

/-- C2: on either adapter, `Create` on a `(bucket, key)` that currently
holds a record fails with the `AlreadyExists` error and returns the store
unchanged — it never overwrites the stored record. -/
theorem c2_create_existing_fails :
    (∀ (db : Level) (bucket key : String) (v : JVal) (d : String),
        alookup db (bucket ++ "_" ++ key) = some d →
        LevelBackend.Create db bucket key v = (.error .keyAlreadyExists, db))
    ∧ (∀ (db : Bolt) (bucket key : String) (v : JVal)
        (bk : List (String × String)) (d : String), bucket ≠ "" →
        boltFind db bucket = some bk → alookup bk key = some d →
        BboltBackend.Create db bucket key v =
          (.error .keyAlreadyExists, db)) := by
  constructor
  · intro db bucket key v d h
    simp [LevelBackend.Create, h]
  · intro db bucket key v bk d hne hf hk
    unfold BboltBackend.Create
    rw [view_of_found hne hf, hk]
    rfl

/-- C2 witness: a concrete occupied key on both adapters. -/
theorem c2_witness :
    LevelBackend.Create [("b_k", "SX")] "b" "k" (.jstr "Y") =
      (.error .keyAlreadyExists, [("b_k", "SX")])
    ∧ BboltBackend.Create [("b", [("k", "SX")])] "b" "k" (.jstr "Y") =
      (.error .keyAlreadyExists, [("b", [("k", "SX")])]) :=
  ⟨c2_create_existing_fails.1 _ "b" "k" _ "SX" (by rfl),
   c2_create_existing_fails.2 _ "b" "k" _ [("k", "SX")] "SX" (by decide)
      (by rfl) (by rfl)⟩

/-- C3: on either adapter, `Read`, `Update` and `Delete` on a
`(bucket, key)` that holds no record fail with the adapter's `NotFound`
error (bbolt's "key does not exist", goleveldb's `ErrNotFound`), and the
leveldb store is returned unchanged. -/
theorem c3_absent_key_not_found :
    (∀ (db : Level) (bucket key : String),
        alookup db (bucket ++ "_" ++ key) = none →
        (LevelBackend.Read db bucket key).1 = .error .levelNotFound ∧
        (∀ v, LevelBackend.Update db bucket key v =
          (.error .levelNotFound, db)) ∧
        LevelBackend.Delete db bucket key = (.error .levelNotFound, db) ∧
        Err.levelNotFound.isNotFound = true)
    ∧ (∀ (db : Bolt) (bucket key : String), bucket ≠ "" →
        alookup ((boltFind db bucket).getD []) key = none →
        (BboltBackend.Read db bucket key).1 = .error .keyNotFound ∧
        (∀ v, (BboltBackend.Update db bucket key v).1 =
          .error .keyNotFound) ∧
        (BboltBackend.Delete db bucket key).1 = .error .keyNotFound ∧
        Err.keyNotFound.isNotFound = true) := by
  constructor
  · intro db bucket key h
    refine ⟨?_, fun v => ?_, ?_, rfl⟩
    · unfold LevelBackend.Read
      rw [h]
    · unfold LevelBackend.Update
      rw [h]
    · unfold LevelBackend.Delete
      rw [h]
  · intro db bucket key hne h
    obtain ⟨db1, _, hview⟩ := view_absent hne h
    refine ⟨?_, fun v => ?_, ?_, rfl⟩
    · unfold BboltBackend.Read
      rw [hview]
    · unfold BboltBackend.Update
      rw [hview]
    · unfold BboltBackend.Delete
      rw [hview]

/-- C3 witness: a concrete never-written key on both adapters. -/
theorem c3_witness :
    (LevelBackend.Read [("b_k", "SX")] "b" "z").1 = .error .levelNotFound
    ∧ (BboltBackend.Read [("b", [("k", "SX")])] "b" "z").1 =
        .error .keyNotFound :=
  ⟨(c3_absent_key_not_found.1 [("b_k", "SX")] "b" "z" (by rfl)).1,
   (c3_absent_key_not_found.2 [("b", [("k", "SX")])] "b" "z" (by decide)
      (by rfl)).1⟩

/-- C4: on either adapter, whenever `Get bucket` succeeds with a results
map `m`, `Count bucket` succeeds and returns exactly the number of keys of
`m` — for an empty bucket as well as for a populated one (both are covered
by the quantification over stores). -/
theorem c4_count_eq_get_size :
    (∀ (db : Level) (bucket : String) (m : List (String × JVal)),
        LevelWF db → (LevelBackend.Get db bucket).1 = .ok m →
        (LevelBackend.Count db bucket).1 = .ok m.length)
    ∧ (∀ (db : Bolt) (bucket : String) (m : List (String × JVal)),
        BoltWF db → (BboltBackend.Get db bucket).1 = .ok m →
        (BboltBackend.Count db bucket).1 = .ok m.length) := by
  constructor
  · intro db bucket m hwf hget
    unfold LevelBackend.Get at hget
    dsimp only at hget
    have hlen := decodeAll_ok_length (trimmed_scan_nodup (bucket ++ "_") hwf)
      (fun e _ => by simp) hget
    unfold LevelBackend.Count
    dsimp only
    rw [hlen]
    simp
  · intro db bucket m hwf hget
    unfold BboltBackend.Get at hget
    cases hc : BboltBackend.checkBucket db bucket with
    | error e =>
        rw [hc] at hget
        exact Except.noConfusion hget
    | ok db1 =>
        rw [hc] at hget
        dsimp only at hget
        have hnd := checkBucket_contents_nodup hwf hc
        have hnd2 : ((((boltFind db1 bucket).getD []).map
            (fun e => e.1)).Nodup) := hnd
        have hlen := decodeAll_ok_length hnd2 (fun e _ => by simp) hget
        unfold BboltBackend.Count
        rw [hc]
        dsimp only
        rw [hlen]
        simp

/-- C4 witness: a populated bucket with two records on both adapters. -/
theorem c4_witness :
    (LevelBackend.Count [("b_k", "SX"), ("b_j", "T")] "b").1 = .ok 2
    ∧ (BboltBackend.Count [("b", [("k", "SX"), ("j", "T")])] "b").1 =
        .ok 2 :=
  ⟨c4_count_eq_get_size.1 [("b_k", "SX"), ("b_j", "T")] "b"
      [("k", .jstr "X"), ("j", .jbool true)] (by decide) (by rfl),
   c4_count_eq_get_size.2 [("b", [("k", "SX"), ("j", "T")])] "b"
      [("k", .jstr "X"), ("j", .jbool true)] (by decide) (by rfl)⟩

/-- C5: on the leveldb adapter the physical keys of `("a", "b_c")` and
`("a_b", "c")` coincide: once `Create "a" "b_c" x` has succeeded,
`Create "a_b" "c" y` fails with `AlreadyExists` and leaves the store
unchanged, and `Read "a_b" "c"` returns `x` — the same answer as
`Read "a" "b_c"`. -/
theorem c5_bucket_key_collision :
    ∀ (db db2 : Level) (x y : JVal),
      LevelBackend.Create db "a" "b_c" x = (.ok (), db2) →
      LevelBackend.Create db2 "a_b" "c" y =
        (.error .keyAlreadyExists, db2) ∧
      (LevelBackend.Read db2 "a_b" "c").1 = .ok x ∧
      (LevelBackend.Read db2 "a_b" "c").1 =
        (LevelBackend.Read db2 "a" "b_c").1 := by
  intro db db2 x y h
  obtain ⟨data, hm, hdb2⟩ := level_create_ok h
  subst hdb2
  have hkey : ("a_b" ++ "_" ++ "c" : String) = "a" ++ "_" ++ "b_c" := by
    decide
  have hfound : alookup (mapInsert db ("a" ++ "_" ++ "b_c") data)
      ("a_b" ++ "_" ++ "c") = some data := by
    rw [hkey]
    exact alookup_mapInsert_self _ _ _
  refine ⟨?_, ?_, ?_⟩
  · unfold LevelBackend.Create
    rw [hfound]
    rfl
  · exact level_read_found hfound (json.Unmarshal_Marshal hm)
  · rw [level_read_found hfound (json.Unmarshal_Marshal hm),
      level_read_found (alookup_mapInsert_self _ _ _)
        (json.Unmarshal_Marshal hm)]

/-- C5 witness: the collision run from the empty store. -/
theorem c5_witness :
    LevelBackend.Create [("a_b_c", "SX")] "a_b" "c" (.jstr "Y") =
      (.error .keyAlreadyExists, [("a_b_c", "SX")])
    ∧ (LevelBackend.Read [("a_b_c", "SX")] "a_b" "c").1 =
      .ok (.jstr "X") :=
  ⟨(c5_bucket_key_collision [] [("a_b_c", "SX")] (.jstr "X") (.jstr "Y")
      (by rfl)).1,
   (c5_bucket_key_collision [] [("a_b_c", "SX")] (.jstr "X") (.jstr "Y")
      (by rfl)).2.1⟩

/-- C6: on the bbolt adapter, `Read`, `Update`, `Delete` and `Count` on a
non-existent bucket each create that bucket, empty, as a side effect and
leave every other bucket unchanged; `Read`, `Update` and `Delete` still
fail with the "key does not exist" error and `Count` returns 0. -/
theorem c6_bbolt_read_path_creates_bucket :
    ∀ (db : Bolt) (bucket key : String) (v : JVal), bucket ≠ "" →
      boltFind db bucket = none →
      (boltFind (BboltBackend.Read db bucket key).2 bucket = some [] ∧
        (BboltBackend.Read db bucket key).1 = .error .keyNotFound ∧
        ∀ b2, b2 ≠ bucket →
          boltFind (BboltBackend.Read db bucket key).2 b2 =
            boltFind db b2) ∧
      (boltFind (BboltBackend.Update db bucket key v).2 bucket = some [] ∧
        (BboltBackend.Update db bucket key v).1 = .error .keyNotFound ∧
        ∀ b2, b2 ≠ bucket →
          boltFind (BboltBackend.Update db bucket key v).2 b2 =
            boltFind db b2) ∧
      (boltFind (BboltBackend.Delete db bucket key).2 bucket = some [] ∧
        (BboltBackend.Delete db bucket key).1 = .error .keyNotFound ∧
        ∀ b2, b2 ≠ bucket →
          boltFind (BboltBackend.Delete db bucket key).2 b2 =
            boltFind db b2) ∧
      (boltFind (BboltBackend.Count db bucket).2 bucket = some [] ∧
        (BboltBackend.Count db bucket).1 = .ok 0 ∧
        ∀ b2, b2 ≠ bucket →
          boltFind (BboltBackend.Count db bucket).2 b2 =
            boltFind db b2) := by
  intro db bucket key v hne hf
  have hc := checkBucket_of_absent hne hf
  have habs : alookup ((boltFind db bucket).getD []) key = none := by
    rw [hf]
    rfl
  obtain ⟨db1, hc1, hview⟩ := view_absent hne habs
  rw [hc] at hc1
  injection hc1 with hdb1
  subst hdb1
  have hfind : boltFind (db ++ [(bucket, [])]) bucket = some [] := by
    have h3 := checkBucket_ok_find hc
    rw [hf] at h3
    simpa using h3
  have hframe := checkBucket_ok_frame hc
  refine ⟨?_, ?_, ?_, ?_⟩
  · unfold BboltBackend.Read
    rw [hview]
    exact ⟨hfind, rfl, hframe⟩
  · unfold BboltBackend.Update
    rw [hview]
    exact ⟨hfind, rfl, hframe⟩
  · unfold BboltBackend.Delete
    rw [hview]
    exact ⟨hfind, rfl, hframe⟩
  · unfold BboltBackend.Count
    rw [hc]
    dsimp only
    refine ⟨hfind, ?_, hframe⟩
    rw [hfind]
    rfl

/-- C6 witness: reading and counting a missing bucket on a concrete store
leave behind an empty bucket. -/
theorem c6_witness :
    boltFind (BboltBackend.Read [("z", [])] "b" "k").2 "b" = some []
    ∧ (BboltBackend.Count [("z", [])] "b").1 = .ok 0 :=
  ⟨(c6_bbolt_read_path_creates_bucket [("z", [])] "b" "k" (.jstr "X")
      (by decide) (by rfl)).1.1,
   (c6_bbolt_read_path_creates_bucket [("z", [])] "b" "k" (.jstr "X")
      (by decide) (by rfl)).2.2.2.2.1⟩

/-- C7: dropping a bucket that does not exist is a successful no-op on the
leveldb adapter (empty prefix scan) and fails with `ErrBucketNotFound` on
the bbolt adapter; in both cases the store is returned unchanged. -/
theorem c7_drop_missing_bucket :
    (∀ (db : Level) (bucket : String),
        levelScan db (bucket ++ "_") = [] →
        LevelBackend.Drop db bucket = (.ok (), db))
    ∧ (∀ (db : Bolt) (bucket : String), boltFind db bucket = none →
        BboltBackend.Drop db bucket = (.error .bucketNotFound, db)) := by
  constructor
  · intro db bucket h
    unfold LevelBackend.Drop
    rw [h]
    rfl
  · intro db bucket h
    unfold BboltBackend.Drop
    rw [h]

/-- C7 witness: dropping the missing bucket "x" on concrete stores. -/
theorem c7_witness :
    LevelBackend.Drop [("a_k", "SX")] "x" = (.ok (), [("a_k", "SX")])
    ∧ BboltBackend.Drop [("a", [])] "x" =
      (.error .bucketNotFound, [("a", [])]) :=
  ⟨c7_drop_missing_bucket.1 [("a_k", "SX")] "x" (by rfl),
   c7_drop_missing_bucket.2 [("a", [])] "x" (by rfl)⟩

/-- C8: on either adapter, `Count` of a non-empty-named bucket that does
not exist does not fail and returns 0. -/
theorem c8_count_missing_bucket_zero :
    (∀ (db : Level) (bucket : String), bucket ≠ "" →
        levelScan db (bucket ++ "_") = [] →
        (LevelBackend.Count db bucket).1 = .ok 0)
    ∧ (∀ (db : Bolt) (bucket : String), bucket ≠ "" →
        boltFind db bucket = none →
        (BboltBackend.Count db bucket).1 = .ok 0) := by
  constructor
  · intro db bucket _ h
    unfold LevelBackend.Count
    rw [h]
    rfl
  · intro db bucket hne hf
    have hc := checkBucket_of_absent hne hf
    have hfind : boltFind (db ++ [(bucket, [])]) bucket = some [] := by
      have h3 := checkBucket_ok_find hc
      rw [hf] at h3
      simpa using h3
    unfold BboltBackend.Count
    rw [hc]
    dsimp only
    rw [hfind]
    rfl

/-- C8 witness: counting the missing bucket "b" on concrete stores. -/
theorem c8_witness :
    (LevelBackend.Count [("a_k", "SX")] "b").1 = .ok 0
    ∧ (BboltBackend.Count [("a", [])] "b").1 = .ok 0 :=
  ⟨c8_count_missing_bucket_zero.1 [("a_k", "SX")] "b" (by decide) (by rfl),
   c8_count_missing_bucket_zero.2 [("a", [])] "b" (by decide) (by rfl)⟩

/-- C9: on either adapter, `Update` of an existing record with a value the
serializer rejects fails with the marshal error and returns the store
completely unchanged, so the previously stored value is intact. -/
theorem c9_failed_marshal_keeps_value :
    (∀ (db : Level) (bucket key d : String) (v : JVal),
        alookup db (bucket ++ "_" ++ key) = some d →
        json.Marshal v = none →
        LevelBackend.Update db bucket key v = (.error .marshalFail, db))
    ∧ (∀ (db : Bolt) (bucket key : String) (bk : List (String × String))
        (d : String) (v : JVal), bucket ≠ "" →
        boltFind db bucket = some bk → alookup bk key = some d →
        json.Marshal v = none →
        BboltBackend.Update db bucket key v =
          (.error .marshalFail, db)) := by
  constructor
  · intro db bucket key d v h hm
    unfold LevelBackend.Update
    rw [h]
    dsimp only
    rw [hm]
  · intro db bucket key bk d v hne hf hk hm
    unfold BboltBackend.Update
    rw [view_of_found hne hf, hk]
    dsimp only [Option.elim]
    unfold BboltBackend.write
    rw [hm]

/-- C9 witness: updating an occupied key with an unserializable value. -/
theorem c9_witness :
    LevelBackend.Update [("b_k", "SX")] "b" "k" .junsupported =
      (.error .marshalFail, [("b_k", "SX")])
    ∧ BboltBackend.Update [("b", [("k", "SX")])] "b" "k" .junsupported =
      (.error .marshalFail, [("b", [("k", "SX")])]) :=
  ⟨c9_failed_marshal_keeps_value.1 [("b_k", "SX")] "b" "k" "SX"
      .junsupported (by rfl) (by rfl),
   c9_failed_marshal_keeps_value.2 [("b", [("k", "SX")])] "b" "k"
      [("k", "SX")] "SX" .junsupported (by decide) (by rfl) (by rfl)
      (by rfl)⟩

/-- C10: on the leveldb adapter the prefix scans leak across buckets whose
names extend each other: a record of bucket `b ++ "_" ++ rest` (physical key
`(b ++ "_" ++ rest) ++ "_" ++ k`) is visited by the scan that implements
`Count b`, `Get b` and `Drop b`; hence `Count b` counts at least all of that
bucket's records, `Get b` returns the record under the key
`rest ++ "_" ++ k` (`b`'s prefix trimmed), and `Drop b` deletes it even
though it logically belongs to the other bucket. -/
theorem c10_prefix_scan_leak :
    ∀ (db : Level) (b rest k d : String), LevelWF db →
      ((b ++ "_" ++ rest) ++ "_" ++ k, d) ∈ db →
      ((b ++ "_" ++ rest) ++ "_" ++ k, d) ∈ levelScan db (b ++ "_") ∧
      (∀ n n2, (LevelBackend.Count db (b ++ "_" ++ rest)).1 = .ok n2 →
        (LevelBackend.Count db b).1 = .ok n → n2 ≤ n) ∧
      (∀ m v, (LevelBackend.Get db b).1 = .ok m →
        json.Unmarshal d = some v → (rest ++ "_" ++ k, v) ∈ m) ∧
      alookup (LevelBackend.Drop db b).2 ((b ++ "_" ++ rest) ++ "_" ++ k) =
        none := by
  intro db b rest k d hwf hmem
  have hsplit : (b ++ "_" ++ rest) ++ "_" ++ k =
      (b ++ "_") ++ (rest ++ "_" ++ k) := by
    simp [String.append_assoc]
  have hpk : strHasPfx (b ++ "_") ((b ++ "_" ++ rest) ++ "_" ++ k) = true := by
    rw [hsplit]
    exact strHasPfx_append _ _
  have hscan : ((b ++ "_" ++ rest) ++ "_" ++ k, d) ∈ levelScan db (b ++ "_") :=
    (mem_levelScan db (b ++ "_") _).mpr ⟨hmem, hpk⟩
  refine ⟨hscan, ?_, ?_, ?_⟩
  · intro n n2 h2 h1
    unfold LevelBackend.Count at h1 h2
    dsimp only at h1 h2
    injection h1 with h1
    injection h2 with h2
    subst h1
    subst h2
    have hjoin : (b ++ "_" ++ rest) ++ "_" = (b ++ "_") ++ (rest ++ "_") := by
      simp [String.append_assoc]
    rw [hjoin]
    exact levelScan_length_mono db (b ++ "_") (rest ++ "_")
  · intro m v hget hv
    unfold LevelBackend.Get at hget
    dsimp only at hget
    have hm := decodeAll_ok_mem (trimmed_scan_nodup (b ++ "_") hwf)
      (fun e _ => by simp) hget hscan hv
    rwa [hsplit, trimPfx_append] at hm
  · unfold LevelBackend.Drop
    exact alookup_foldl_erase
      (Or.inl (List.mem_map_of_mem Prod.fst hscan))

/-- C10 witness: the record of bucket "a_b" is scanned, returned and
dropped by the operations on bucket "a". -/
theorem c10_witness :
    (("a" ++ "_" ++ "b") ++ "_" ++ "c", "SX") ∈
        levelScan [("a_b_c", "SX")] ("a" ++ "_")
    ∧ alookup (LevelBackend.Drop [("a_b_c", "SX")] "a").2
        (("a" ++ "_" ++ "b") ++ "_" ++ "c") = none :=
  ⟨(c10_prefix_scan_leak [("a_b_c", "SX")] "a" "b" "c" "SX" (by decide)
      (by decide)).1,
   (c10_prefix_scan_leak [("a_b_c", "SX")] "a" "b" "c" "SX" (by decide)
      (by decide)).2.2.2⟩

